import Mathlib

/-!
Shallow embedding of the Excel/SQLite synchronisation and stock core of
streamlit_app.py (manufacturing dashboard), together with theorems settling
the specification claims about it.
-/

namespace FinalProducao

/-- Tabular content of one sheet or one database table: a list of rows of
cells. The sheet store and the relational mirror move this content around
without inspecting it. -/
abbrev Df := List (List String)

/-- State of the SQLite database: each table name resolves either to its
contents or to a query failure (missing table, unreadable file), mirroring
the exception behaviour of pd.read_sql_query. -/
abbrev DbState := String → Except String Df

/-- From read_table in streamlit_app.py (lines 75-82): run SELECT * on the
table and return an empty DataFrame when the query raises; the exception is
swallowed, never re-raised. -/
def read_table (db : DbState) (table : String) : Df :=
  match db table with
  | Except.ok df => df
  | Except.error _ => []

/-- From write_table in streamlit_app.py (lines 84-87): df.to_sql with
if_exists="replace" drops the previous contents of the table and stores
exactly df. -/
def write_table (db : DbState) (table : String) (df : Df) : DbState :=
  fun t => if t = table then Except.ok df else db t

/-- State of the Excel workbook: either the file is absent, or it is a list
of named sheets in their storage order. -/
abbrev XlsxState := Option (List (String × Df))

/-- Content of the sheet with the given name: first match in storage order. -/
def sheetContent (wb : List (String × Df)) (name : String) : Option Df :=
  (wb.find? (fun p => p.1 == name)).map Prod.snd

/-- From write_excel_sheets in streamlit_app.py (lines 56-73): when the file
does not exist, create it with exactly the given sheets; otherwise remove
every existing sheet whose name appears in the input, save, and append the
input sheets at the end. -/
def write_excel_sheets (sheet_dfs : List (String × Df)) (file : XlsxState) :
    List (String × Df) :=
  match file with
  | none => sheet_dfs
  | some wb => wb.filter (fun p => !(sheet_dfs.any (fun q => q.1 == p.1))) ++ sheet_dfs

/-- From init_db_from_excel in streamlit_app.py (lines 89-97): for each
(sheet, table) pair, try pd.read_excel on the sheet; on exception continue
with the next pair, otherwise overwrite the table with if_exists="replace".
pd.read_excel is modelled as the Except-valued map xlsx. -/
def init_db_from_excel (mapping : List (String × String))
    (xlsx : String → Except String Df) (db : DbState) : DbState :=
  match mapping with
  | [] => db
  | p :: rest =>
    match xlsx p.1 with
    | Except.error _ => init_db_from_excel rest xlsx db
    | Except.ok df => init_db_from_excel rest xlsx (write_table db p.2 df)

/-- State of the working directory as the lock guard sees it: whether the
.write_lock marker file exists, plus the rest of the data (database and
spreadsheet) the guarded operation acts on. -/
structure FsState (σ : Type) where
  lockExists : Bool
  data : σ

/-- From with_lock in streamlit_app.py (lines 45-53), the part after the
wait loop: write the marker, run fn (which acts on the data and either
returns an updated value or raises), and in the finally block remove the
marker; in both the success and the failure branch the marker ends absent
(Path.unlink succeeding is part of the filesystem model). -/
def with_lock_body {σ ε : Type} (fn : σ → Except ε σ) (s : FsState σ) :
    FsState σ × Except ε Unit :=
  match fn s.data with
  | Except.ok d => (⟨false, d⟩, Except.ok ())
  | Except.error e => (⟨false, s.data⟩, Except.error e)

/-- From with_lock in streamlit_app.py (lines 41-54): in a single-process
sequential run nothing else removes the marker, so the wait loop of lines
43-44 passes immediately when the marker is absent and spins forever when it
is present; the forever case is modelled as none. -/
def with_lock {σ ε : Type} (fn : σ → Except ε σ) (s : FsState σ) :
    Option (FsState σ × Except ε Unit) :=
  if s.lockExists then none
  else some (with_lock_body fn s)

/-- From with_lock lines 43-44: the acquisition loop polls the marker at a
fixed interval and has no other exit than observing the marker absent. lockAt
k tells whether the marker exists at the k-th poll (the environment may
remove it); fuel bounds how many polls are observed, and none means the loop
is still spinning after that many polls. The result counts the polls spent
waiting; there is no timeout branch in the source. -/
def lock_wait_loop (lockAt : Nat → Bool) : Nat → Option Nat
  | 0 => none
  | Nat.succ n =>
    if lockAt 0 then Option.map Nat.succ (lock_wait_loop (fun k => lockAt (k + 1)) n)
    else some 0

/-- with_lock including its wait loop, against an environment lockAt: the
guarded operation runs only after the loop observes the marker absent;
within the given fuel either nothing has happened yet (none: fn was never
invoked and no result of any kind was produced) or the guarded call
completed. -/
def with_lock_poll {σ ε : Type} (lockAt : Nat → Bool) (fuel : Nat)
    (fn : σ → Except ε σ) (s : σ) : Option (σ × Except ε Unit) :=
  match lock_wait_loop lockAt fuel with
  | none => none
  | some _ =>
    match fn s with
    | Except.ok d => some (d, Except.ok ())
    | Except.error e => some (s, Except.error e)

/-- Row of the estoque_injetados stock table: sku, nome, quantidade,
unidade, local (the local column is named loc here because local is a Lean
keyword). -/
structure InjRow where
  sku : String
  nome : String
  quantidade : ℚ
  unidade : String
  loc : String
  deriving DecidableEq

/-- Row of the movimentacao_injetados ledger table, with its SQLite
auto-increment id. -/
structure MovRow where
  id : Nat
  sku : String
  nome : String
  qty : ℚ
  motivo : String
  operador : String
  data : String
  deriving DecidableEq

/-- From the Registrar movimentação handler in streamlit_app.py (lines
307-326): append the movement to the ledger, then update the stock table:
with a non-empty sku, when at least one row matches, add qty to every row
whose sku matches (df.loc over the full boolean mask adds qty to each
selected row), and append a fresh row when none matches; with an empty sku
(falsy in the line 316 test) take the append branch directly. The fresh row
carries empty unidade and local. -/
def submit_mov (ledger : List MovRow) (stock : List InjRow) (sku nome : String)
    (qty : ℚ) (motivo operador data : String) : List MovRow × List InjRow :=
  let ledger' := ledger ++ [⟨ledger.length + 1, sku, nome, qty, motivo, operador, data⟩]
  let stock' :=
    if sku ≠ "" then
      if stock.any (fun r => r.sku == sku) then
        stock.map (fun r =>
          if r.sku == sku then { r with quantidade := r.quantidade + qty } else r)
      else
        stock ++ [⟨sku, nome, qty, "", ""⟩]
    else
      stock ++ [⟨sku, nome, qty, "", ""⟩]
  (ledger', stock')

/-- Row of the raw-material stock table (estoque_mp): identifier, name,
quantity-on-hand. -/
structure MpRow where
  mp_id : String
  mp_nome : String
  quantidade : ℚ
  deriving DecidableEq

/-- One line of a bill of materials: component id and quantity per unit of
product. -/
structure BomItem where
  mp_id : String
  qty_per_product : ℚ
  deriving DecidableEq

/-- Row of the production-order log appended by createOrder. -/
structure ProdLogRow where
  id : Nat
  produto : String
  qtd : ℚ
  data : String
  bom : List BomItem
  deriving DecidableEq

/-- Modelled from the spec: the BOM consumption engine (spec §4.6) is not in
src/. Quantity-on-hand of a component summed over all matching stock rows. -/
def available (stock : List MpRow) (cid : String) : ℚ :=
  ((stock.filter (fun r => r.mp_id == cid)).map (fun r => r.quantidade)).sum

/-- Modelled from the spec: the feasibility pass of createOrder (spec §4.6,
not in src/). A component is short when no stock row matches its id or the
summed available quantity is below need = qty_per_product * qtd; the report
lists every short component, in bom order. -/
def shortages (stock : List MpRow) (qtd : ℚ) (bom : List BomItem) : List String :=
  (bom.filter (fun b =>
    !(stock.any (fun r => r.mp_id == b.mp_id)) ||
      decide (available stock b.mp_id < b.qty_per_product * qtd))).map
    (fun b => b.mp_id)

/-- Modelled from the spec: greedy consumption for one component (spec §4.6,
not in src/): iterate the rows in storage order, subtracting from each
matching row up to that row's current balance until need is exhausted. -/
def consumeRows (cid : String) (need : ℚ) : List MpRow → List MpRow
  | [] => []
  | r :: rs =>
    if r.mp_id == cid then
      { r with quantidade := r.quantidade - min r.quantidade need } ::
        consumeRows cid (need - min r.quantidade need) rs
    else
      r :: consumeRows cid need rs

/-- Modelled from the spec: consume every bom line in order (spec §4.6, not
in src/). -/
def consumeBom (stock : List MpRow) (qtd : ℚ) (bom : List BomItem) : List MpRow :=
  bom.foldl (fun st b => consumeRows b.mp_id (b.qty_per_product * qtd) st) stock

/-- Modelled from the spec: auto-incrementing production-log id, max
existing id + 1, or 1 when the log is empty (spec §4.6, not in src/). -/
def nextLogId (log : List ProdLogRow) : Nat :=
  match log with
  | [] => 1
  | _ => (log.map (fun r => r.id)).foldl max 0 + 1

/-- Modelled from the spec: createOrder (spec §4.6, not in src/). When any
component is short the whole order aborts: the state is returned unchanged
together with the aggregated shortage report; otherwise the stock is
consumed greedily, a production-log row is appended, and no error is
reported. -/
def createOrder (stock : List MpRow) (log : List ProdLogRow) (produto : String)
    (qtd : ℚ) (data : String) (bom : List BomItem) :
    (List MpRow × List ProdLogRow) × Option (List String) :=
  let sh := shortages stock qtd bom
  if sh.isEmpty then
    ((consumeBom stock qtd bom, log ++ [⟨nextLogId log, produto, qtd, data, bom⟩]), none)
  else
    ((stock, log), some sh)

/-- Propositional form of the shortage condition of createOrder: no stock
row matches the component id, or the summed available quantity is below
need = qty_per_product * qtd. -/
def shortProp (stock : List MpRow) (qtd : ℚ) (b : BomItem) : Prop :=
  (¬ ∃ r ∈ stock, r.mp_id = b.mp_id) ∨
    available stock b.mp_id < b.qty_per_product * qtd

/-! Helper lemmas, shared between the claim theorems. -/

/-- The Bool test used inside shortages decides exactly shortProp. -/
theorem short_pred_iff (stock : List MpRow) (qtd : ℚ) (b : BomItem) :
    ((!(stock.any (fun r => r.mp_id == b.mp_id))) ||
      decide (available stock b.mp_id < b.qty_per_product * qtd)) = true ↔
    shortProp stock qtd b := by
  simp [shortProp, List.any_eq_true]

/-- A short component's id appears in the shortage report. -/
theorem mem_shortages (stock : List MpRow) (qtd : ℚ) (bom : List BomItem)
    (b : BomItem) (hb : b ∈ bom) (hs : shortProp stock qtd b) :
    b.mp_id ∈ shortages stock qtd bom := by
  exact List.mem_map.mpr
    ⟨b, List.mem_filter.mpr ⟨hb, (short_pred_iff stock qtd b).mpr hs⟩, rfl⟩

/-- An empty shortage report means no bom component is short. -/
theorem shortages_nil (stock : List MpRow) (qtd : ℚ) (bom : List BomItem)
    (h : shortages stock qtd bom = []) :
    ∀ b ∈ bom, ¬ shortProp stock qtd b := by
  intro b hb hs
  have := mem_shortages stock qtd bom b hb hs
  simp [h] at this

/-- An always-present marker keeps the wait loop spinning for any fuel. -/
theorem lock_wait_loop_none :
    ∀ (fuel : Nat) (lockAt : Nat → Bool), (∀ k, lockAt k = true) →
      lock_wait_loop lockAt fuel = none := by
  intro fuel
  induction fuel with
  | zero => intro lockAt _; rfl
  | succ n ih =>
    intro lockAt h
    simp [lock_wait_loop, h 0, ih (fun k => lockAt (k + 1)) (fun k => h (k + 1))]

/-- When no input sheet carries the name, the input part of the rewritten
workbook has no match for it. -/
theorem find?_input_none (input : List (String × Df)) (name : String)
    (h : ∀ q ∈ input, q.1 ≠ name) :
    input.find? (fun p => p.1 == name) = none := by
  rw [List.find?_eq_none]
  intro x hx
  simpa using h x hx

/-- Looking up a name absent from the input in the rewritten workbook is the
same as looking it up in the original workbook. -/
theorem find?_filter_append (input : List (String × Df)) (name : String)
    (h : ∀ q ∈ input, q.1 ≠ name) (wb : List (String × Df)) :
    ((wb.filter (fun p => !(input.any (fun q => q.1 == p.1)))) ++ input).find?
        (fun p => p.1 == name) =
      wb.find? (fun p => p.1 == name) := by
  induction wb with
  | nil => simpa using find?_input_none input name h
  | cons p wb ih =>
    rw [List.filter_cons]
    by_cases hpn : p.1 = name
    · have hkeep : (input.any (fun q => q.1 == p.1)) = false := by
        rw [List.any_eq_false]
        intro q hq
        simp [hpn]
        exact fun e => (h q hq) (by simp [e, hpn])
      rw [hkeep]
      rw [show (!false) = true from rfl, if_pos rfl, List.cons_append]
      rw [List.find?_cons_of_pos _ (by simp [hpn]),
        List.find?_cons_of_pos _ (by simp [hpn])]
    · by_cases hany : (input.any (fun q => q.1 == p.1)) = true
      · rw [hany]
        rw [show (!true) = false from rfl, if_neg (by simp), ih,
          List.find?_cons_of_neg _ (by simp [hpn])]
      · rw [Bool.not_eq_true] at hany
        rw [hany]
        rw [show (!false) = true from rfl, if_pos rfl, List.cons_append]
        rw [List.find?_cons_of_neg _ (by simp [hpn]),
          List.find?_cons_of_neg _ (by simp [hpn]), ih]

/-- Every sheet the rewrite kept from the old workbook has a name outside
the input, so a name carried by the input has no match in the kept part. -/
theorem find?_filter_none (input : List (String × Df)) (name : String)
    (hname : name ∈ input.map Prod.fst) (wb : List (String × Df)) :
    (wb.filter (fun p => !(input.any (fun q => q.1 == p.1)))).find?
      (fun p => p.1 == name) = none := by
  rw [List.find?_eq_none]
  intro x hx hbeq
  have hxf : (!(input.any (fun q => q.1 == x.1))) = true := (List.mem_filter.mp hx).2
  rw [Bool.not_eq_true', List.any_eq_false] at hxf
  obtain ⟨q, hq, hq1⟩ := List.mem_map.mp hname
  have hx1 : x.1 = name := by simpa using hbeq
  exact hxf q hq (by simp [hq1, hx1])

/-- With pairwise distinct input names, looking up an input sheet by name
finds exactly its given content. -/
theorem find?_input_mem (input : List (String × Df)) (name : String) (df : Df)
    (hnd : (input.map Prod.fst).Nodup) (hmem : (name, df) ∈ input) :
    input.find? (fun p => p.1 == name) = some (name, df) := by
  induction input with
  | nil => cases hmem
  | cons q rest ih =>
    rw [List.map_cons] at hnd
    have hnd' := List.nodup_cons.mp hnd
    rcases List.mem_cons.mp hmem with he | hmemr
    · rw [← he, List.find?_cons_of_pos _ (by simp)]
    · have hq1 : q.1 ≠ name := by
        intro e
        exact hnd'.1 (e ▸ List.mem_map.mpr ⟨(name, df), hmemr, rfl⟩)
      rw [List.find?_cons_of_neg _ (by simp [hq1])]
      exact ih hnd'.2 hmemr

/-- A table that no mapping pair targets is untouched by the import pass. -/
theorem init_db_not_target :
    ∀ (mapping : List (String × String)) (xlsx : String → Except String Df)
      (db : DbState) (t : String), t ∉ mapping.map Prod.snd →
      init_db_from_excel mapping xlsx db t = db t := by
  intro mapping
  induction mapping with
  | nil => intro xlsx db t _; rfl
  | cons p rest ih =>
    intro xlsx db t ht
    rw [List.map_cons, List.mem_cons] at ht
    push_neg at ht
    cases hx : xlsx p.1 with
    | error e =>
      simp only [init_db_from_excel, hx]
      exact ih xlsx db t ht.2
    | ok df =>
      simp only [init_db_from_excel, hx]
      rw [ih xlsx (write_table db p.2 df) t ht.2, write_table, if_neg ht.1]

/-- When the sheet of a mapping pair reads successfully and the target
tables are pairwise distinct, the pass leaves the pair's table holding
exactly the sheet's content. -/
theorem init_db_mem_ok :
    ∀ (mapping : List (String × String)) (xlsx : String → Except String Df)
      (db : DbState) (s t : String) (df : Df),
      (mapping.map Prod.snd).Nodup → (s, t) ∈ mapping → xlsx s = Except.ok df →
      init_db_from_excel mapping xlsx db t = Except.ok df := by
  intro mapping
  induction mapping with
  | nil => intro _ _ _ _ _ _ hmem _; cases hmem
  | cons p rest ih =>
    intro xlsx db s t df hnd hmem hx
    rw [List.map_cons] at hnd
    have hnd' := List.nodup_cons.mp hnd
    rcases List.mem_cons.mp hmem with he | hmemr
    · rw [← he] at hnd' ⊢
      simp only [init_db_from_excel, hx]
      rw [init_db_not_target rest xlsx (write_table db t df) t hnd'.1,
        write_table, if_pos rfl]
    · cases hx0 : xlsx p.1 with
      | error e =>
        simp only [init_db_from_excel, hx0]
        exact ih xlsx db s t df hnd'.2 hmemr hx
      | ok df0 =>
        simp only [init_db_from_excel, hx0]
        exact ih xlsx (write_table db p.2 df0) s t df hnd'.2 hmemr hx

/-- When the sheet of a mapping pair is absent and the target tables are
pairwise distinct, the pass leaves the pair's table untouched. -/
theorem init_db_mem_err :
    ∀ (mapping : List (String × String)) (xlsx : String → Except String Df)
      (db : DbState) (s t : String) (e : String),
      (mapping.map Prod.snd).Nodup → (s, t) ∈ mapping →
      xlsx s = Except.error e →
      init_db_from_excel mapping xlsx db t = db t := by
  intro mapping
  induction mapping with
  | nil => intro _ _ _ _ _ _ hmem _; cases hmem
  | cons p rest ih =>
    intro xlsx db s t e hnd hmem hx
    rw [List.map_cons] at hnd
    have hnd' := List.nodup_cons.mp hnd
    rcases List.mem_cons.mp hmem with he | hmemr
    · rw [← he] at hnd' ⊢
      simp only [init_db_from_excel, hx]
      exact init_db_not_target rest xlsx db t hnd'.1
    · have ht2 : t ≠ p.2 := by
        intro ee
        exact hnd'.1 (ee ▸ List.mem_map.mpr ⟨(s, t), hmemr, rfl⟩)
      cases hx0 : xlsx p.1 with
      | error e0 =>
        simp only [init_db_from_excel, hx0]
        exact ih xlsx db s t e hnd'.2 hmemr hx
      | ok df0 =>
        simp only [init_db_from_excel, hx0]
        rw [ih xlsx (write_table db p.2 df0) s t e hnd'.2 hmemr hx,
          write_table, if_neg ht2]

/-- Unfolding of available over a cons cell. -/
theorem available_cons (r : MpRow) (rs : List MpRow) (cid : String) :
    available (r :: rs) cid =
      (if r.mp_id == cid then r.quantidade else 0) + available rs cid := by
  by_cases h : (r.mp_id == cid) = true
  · simp [available, List.filter_cons, h]
  · rw [Bool.not_eq_true] at h
    simp [available, List.filter_cons, h]

/-- Availability is nonnegative over nonnegative rows. -/
theorem available_nonneg :
    ∀ (st : List MpRow) (cid : String), (∀ r ∈ st, 0 ≤ r.quantidade) →
      0 ≤ available st cid := by
  intro st
  induction st with
  | nil => intro cid _; exact le_refl 0
  | cons r rs ih =>
    intro cid h
    rw [available_cons]
    have h1 : 0 ≤ available rs cid := ih cid (fun x hx => h x (List.mem_cons_of_mem _ hx))
    by_cases hr : (r.mp_id == cid) = true
    · rw [if_pos hr]
      exact add_nonneg (h r (List.mem_cons_self _ _)) h1
    · rw [if_neg hr, zero_add]
      exact h1

/-- Greedy consumption preserves the number of rows. -/
theorem consumeRows_length (cid : String) :
    ∀ (st : List MpRow) (need : ℚ), (consumeRows cid need st).length = st.length := by
  intro st
  induction st with
  | nil => intro need; rfl
  | cons r rs ih =>
    intro need
    by_cases h : (r.mp_id == cid) = true
    · simp [consumeRows, h, ih]
    · rw [Bool.not_eq_true] at h
      simp [consumeRows, h, ih]

/-- Row-level characterization of greedy consumption: every row keeps its
place, id and name; a row whose id differs from the component is untouched;
a matching nonnegative row is weakly decremented and never goes below
zero. -/
theorem consumeRows_rows :
    ∀ (st : List MpRow) (cid : String) (need : ℚ), 0 ≤ need →
      ∀ (i : Nat) (r : MpRow), st[i]? = some r →
        ∃ r', (consumeRows cid need st)[i]? = some r' ∧
          r'.mp_id = r.mp_id ∧ r'.mp_nome = r.mp_nome ∧
          (r.mp_id ≠ cid → r' = r) ∧
          (0 ≤ r.quantidade → 0 ≤ r'.quantidade ∧ r'.quantidade ≤ r.quantidade) := by
  intro st
  induction st with
  | nil => intro cid need _ i r hir; simp at hir
  | cons r0 rs ih =>
    intro cid need hneed i r hir
    by_cases h : (r0.mp_id == cid) = true
    · rw [show consumeRows cid need (r0 :: rs) =
          { r0 with quantidade := r0.quantidade - min r0.quantidade need } ::
            consumeRows cid (need - min r0.quantidade need) rs from by
        simp [consumeRows, h]]
      cases i with
      | zero =>
        simp only [List.getElem?_cons_zero, Option.some_inj] at hir
        subst hir
        refine ⟨{ r0 with quantidade := r0.quantidade - min r0.quantidade need },
          by simp, rfl, rfl, ?_, ?_⟩
        · intro hne
          exact absurd (by simpa using h) hne
        · intro hq
          exact ⟨sub_nonneg.mpr (min_le_left _ _), sub_le_self _ (le_min hq hneed)⟩
      | succ n =>
        rw [List.getElem?_cons_succ] at hir ⊢
        exact ih cid (need - min r0.quantidade need)
          (sub_nonneg.mpr (min_le_right _ _)) n r hir
    · rw [show consumeRows cid need (r0 :: rs) =
          r0 :: consumeRows cid need rs from by simp [consumeRows, h]]
      cases i with
      | zero =>
        simp only [List.getElem?_cons_zero, Option.some_inj] at hir
        subst hir
        exact ⟨r0, by simp, rfl, rfl, fun _ => rfl, fun hq => ⟨hq, le_refl _⟩⟩
      | succ n =>
        rw [List.getElem?_cons_succ] at hir ⊢
        exact ih cid need hneed n r hir

/-- Greedy consumption keeps all quantities nonnegative. -/
theorem consumeRows_nonneg :
    ∀ (st : List MpRow) (cid : String) (need : ℚ), 0 ≤ need →
      (∀ r ∈ st, 0 ≤ r.quantidade) →
      ∀ r' ∈ consumeRows cid need st, 0 ≤ r'.quantidade := by
  intro st
  induction st with
  | nil => intro cid need _ _ r' hr'; simp [consumeRows] at hr'
  | cons r0 rs ih =>
    intro cid need hneed hst r' hr'
    by_cases h : (r0.mp_id == cid) = true
    · rw [show consumeRows cid need (r0 :: rs) =
          { r0 with quantidade := r0.quantidade - min r0.quantidade need } ::
            consumeRows cid (need - min r0.quantidade need) rs from by
        simp [consumeRows, h]] at hr'
      rcases List.mem_cons.mp hr' with he | hm
      · rw [he]
        exact sub_nonneg.mpr (min_le_left _ _)
      · exact ih cid _ (sub_nonneg.mpr (min_le_right _ _))
          (fun x hx => hst x (List.mem_cons_of_mem _ hx)) r' hm
    · rw [show consumeRows cid need (r0 :: rs) =
          r0 :: consumeRows cid need rs from by simp [consumeRows, h]] at hr'
      rcases List.mem_cons.mp hr' with he | hm
      · rw [he]
        exact hst r0 (List.mem_cons_self _ _)
      · exact ih cid need hneed
          (fun x hx => hst x (List.mem_cons_of_mem _ hx)) r' hm

/-- Greedy consumption removes exactly min need available from the
component's availability: with enough stock, exactly need is consumed. -/
theorem available_consumeRows :
    ∀ (st : List MpRow) (cid : String) (need : ℚ),
      0 ≤ need → (∀ r ∈ st, 0 ≤ r.quantidade) →
      available (consumeRows cid need st) cid =
        available st cid - min need (available st cid) := by
  intro st
  induction st with
  | nil =>
    intro cid need hneed _
    rw [show consumeRows cid need [] = [] from rfl,
      show available ([] : List MpRow) cid = 0 from rfl, min_eq_right hneed]
    norm_num
  | cons r0 rs ih =>
    intro cid need hneed hst
    have hrs : ∀ r ∈ rs, 0 ≤ r.quantidade :=
      fun x hx => hst x (List.mem_cons_of_mem _ hx)
    have hA : 0 ≤ available rs cid := available_nonneg rs cid hrs
    by_cases h : (r0.mp_id == cid) = true
    · have h0 : 0 ≤ r0.quantidade := hst r0 (List.mem_cons_self _ _)
      rw [show consumeRows cid need (r0 :: rs) =
          { r0 with quantidade := r0.quantidade - min r0.quantidade need } ::
            consumeRows cid (need - min r0.quantidade need) rs from by
        simp [consumeRows, h]]
      rw [available_cons, available_cons,
        ih cid (need - min r0.quantidade need)
          (sub_nonneg.mpr (min_le_right _ _)) hrs]
      simp only [h, if_pos]
      rcases le_total need r0.quantidade with hc | hc
      · rw [min_eq_right hc, sub_self, min_eq_left hA,
          min_eq_left (by linarith : need ≤ r0.quantidade + available rs cid)]
        ring
      · rw [min_eq_left hc]
        have hmin : min need (r0.quantidade + available rs cid) =
            r0.quantidade + min (need - r0.quantidade) (available rs cid) := by
          rw [← min_add_add_left]
          ring_nf
        rw [hmin]
        ring
    · rw [show consumeRows cid need (r0 :: rs) =
          r0 :: consumeRows cid need rs from by simp [consumeRows, h]]
      rw [available_cons, available_cons, ih cid need hneed hrs]
      rw [Bool.not_eq_true] at h
      simp only [h, Bool.false_eq_true, if_false, zero_add]

/-- Consuming one component does not change another component's
availability. -/
theorem available_consumeRows_ne :
    ∀ (st : List MpRow) (cid cid' : String) (need : ℚ), cid ≠ cid' →
      available (consumeRows cid' need st) cid = available st cid := by
  intro st
  induction st with
  | nil => intro cid cid' need _; rfl
  | cons r0 rs ih =>
    intro cid cid' need hne
    by_cases h : (r0.mp_id == cid') = true
    · have hr0 : (r0.mp_id == cid) = false := by
        have he : r0.mp_id = cid' := by simpa using h
        simp [he]
        exact fun e => hne e.symm
      rw [show consumeRows cid' need (r0 :: rs) =
          { r0 with quantidade := r0.quantidade - min r0.quantidade need } ::
            consumeRows cid' (need - min r0.quantidade need) rs from by
        simp [consumeRows, h]]
      rw [available_cons, available_cons, ih cid cid' _ hne]
      simp only [hr0, Bool.false_eq_true, if_false]
    · rw [show consumeRows cid' need (r0 :: rs) =
          r0 :: consumeRows cid' need rs from by simp [consumeRows, h]]
      rw [available_cons, available_cons, ih cid cid' need hne]

/-- Unfolding of consumeBom over a cons cell. -/
theorem consumeBom_cons (stock : List MpRow) (qtd : ℚ) (b : BomItem)
    (rest : List BomItem) :
    consumeBom stock qtd (b :: rest) =
      consumeBom (consumeRows b.mp_id (b.qty_per_product * qtd) stock) qtd rest := rfl

/-- Consuming a whole bom preserves the number of stock rows. -/
theorem consumeBom_length :
    ∀ (bom : List BomItem) (stock : List MpRow) (qtd : ℚ),
      (consumeBom stock qtd bom).length = stock.length := by
  intro bom
  induction bom with
  | nil => intro stock qtd; rfl
  | cons b rest ih =>
    intro stock qtd
    rw [consumeBom_cons, ih, consumeRows_length]

/-- Consuming a whole bom keeps all quantities nonnegative. -/
theorem consumeBom_nonneg :
    ∀ (bom : List BomItem) (stock : List MpRow) (qtd : ℚ),
      (∀ b ∈ bom, 0 ≤ b.qty_per_product * qtd) →
      (∀ r ∈ stock, 0 ≤ r.quantidade) →
      ∀ r' ∈ consumeBom stock qtd bom, 0 ≤ r'.quantidade := by
  intro bom
  induction bom with
  | nil => intro stock qtd _ hst r' hr'; exact hst r' hr'
  | cons b rest ih =>
    intro stock qtd hbom hst r' hr'
    rw [consumeBom_cons] at hr'
    exact ih _ qtd (fun x hx => hbom x (List.mem_cons_of_mem _ hx))
      (consumeRows_nonneg stock b.mp_id _
        (hbom b (List.mem_cons_self _ _)) hst) r' hr'

/-- A component outside the bom keeps its availability across the whole
consumption. -/
theorem consumeBom_available_notin :
    ∀ (bom : List BomItem) (stock : List MpRow) (qtd : ℚ) (cid : String),
      cid ∉ bom.map (fun b => b.mp_id) →
      available (consumeBom stock qtd bom) cid = available stock cid := by
  intro bom
  induction bom with
  | nil => intro stock qtd cid _; rfl
  | cons b rest ih =>
    intro stock qtd cid hcid
    rw [List.map_cons, List.mem_cons] at hcid
    push_neg at hcid
    rw [consumeBom_cons, ih _ qtd cid hcid.2,
      available_consumeRows_ne stock cid b.mp_id _ hcid.1]

/-- Exhaustion across a bom with pairwise-distinct component ids: when the
order is feasible, each component's availability drops by exactly its
need. -/
theorem consumeBom_available :
    ∀ (bom : List BomItem) (stock : List MpRow) (qtd : ℚ),
      (bom.map (fun b => b.mp_id)).Nodup →
      (∀ r ∈ stock, 0 ≤ r.quantidade) →
      (∀ b ∈ bom, 0 ≤ b.qty_per_product * qtd ∧
        b.qty_per_product * qtd ≤ available stock b.mp_id) →
      ∀ b ∈ bom, available (consumeBom stock qtd bom) b.mp_id =
        available stock b.mp_id - b.qty_per_product * qtd := by
  intro bom
  induction bom with
  | nil => intro _ _ _ _ _ b hb; cases hb
  | cons b0 rest ih =>
    intro stock qtd hnd hst hfeas b hb
    rw [List.map_cons] at hnd
    have hnd' := List.nodup_cons.mp hnd
    have h0 := hfeas b0 (List.mem_cons_self _ _)
    have hstock' : ∀ r ∈ consumeRows b0.mp_id (b0.qty_per_product * qtd) stock,
        0 ≤ r.quantidade := consumeRows_nonneg stock b0.mp_id _ h0.1 hst
    rcases List.mem_cons.mp hb with he | hbr
    · rw [he, consumeBom_cons,
        consumeBom_available_notin rest _ qtd b0.mp_id hnd'.1,
        available_consumeRows stock b0.mp_id _ h0.1 hst, min_eq_left h0.2]
    · have hne : b.mp_id ≠ b0.mp_id := by
        intro e
        exact hnd'.1 (e ▸ List.mem_map.mpr ⟨b, hbr, rfl⟩)
      have hfeas' : ∀ b' ∈ rest, 0 ≤ b'.qty_per_product * qtd ∧
          b'.qty_per_product * qtd ≤
            available (consumeRows b0.mp_id (b0.qty_per_product * qtd) stock)
              b'.mp_id := by
        intro b' hb'
        have hne' : b'.mp_id ≠ b0.mp_id := by
          intro e
          exact hnd'.1 (e ▸ List.mem_map.mpr ⟨b', hb', rfl⟩)
        rw [available_consumeRows_ne stock b'.mp_id b0.mp_id _ hne']
        exact hfeas b' (List.mem_cons_of_mem _ hb')
      rw [consumeBom_cons, ih _ qtd hnd'.2 hstock' hfeas' b hbr,
        available_consumeRows_ne stock b.mp_id b0.mp_id _ hne]

/-- A stock row whose component id is outside the bom is untouched by the
whole consumption, in place. -/
theorem consumeBom_get_not_mem :
    ∀ (bom : List BomItem) (stock : List MpRow) (qtd : ℚ) (i : Nat) (r : MpRow),
      (∀ b ∈ bom, 0 ≤ b.qty_per_product * qtd) →
      stock[i]? = some r → r.mp_id ∉ bom.map (fun b => b.mp_id) →
      (consumeBom stock qtd bom)[i]? = some r := by
  intro bom
  induction bom with
  | nil => intro stock qtd i r _ hir _; exact hir
  | cons b rest ih =>
    intro stock qtd i r hbom hir hr
    rw [List.map_cons, List.mem_cons] at hr
    push_neg at hr
    obtain ⟨r', hr', _, _, hid, _⟩ :=
      consumeRows_rows stock b.mp_id (b.qty_per_product * qtd)
        (hbom b (List.mem_cons_self _ _)) i r hir
    rw [consumeBom_cons]
    exact ih _ qtd i r (fun x hx => hbom x (List.mem_cons_of_mem _ hx))
      (by rw [hr', hid hr.1]) hr.2

/-! Claim theorems. -/

/-- C2: when any bom component is short (no matching row, or summed
availability below need), createOrder aborts the whole order: the stock and
the production log are returned unchanged, and the reported error names
every short component, not only the first. The second conjunct settles the
spec's concrete scenario: total stock 4 against need 5 fails naming M1 with
neither stock row changed and no log row appended. -/
theorem C2_shortage_abort :
    (∀ (stock : List MpRow) (log : List ProdLogRow) (produto : String) (qtd : ℚ)
        (data : String) (bom : List BomItem),
      (∃ b ∈ bom, shortProp stock qtd b) →
      (createOrder stock log produto qtd data bom).1 = (stock, log) ∧
      ∃ l, (createOrder stock log produto qtd data bom).2 = some l ∧
        ∀ b ∈ bom, shortProp stock qtd b → b.mp_id ∈ l) ∧
    createOrder [⟨"M1", "Mat", 1⟩, ⟨"M1", "Mat", 3⟩] [] "P1" 10 "d"
        [⟨"M1", 1/2⟩] =
      (([⟨"M1", "Mat", 1⟩, ⟨"M1", "Mat", 3⟩], []), some ["M1"]) := by
  constructor
  · intro stock log produto qtd data bom h
    obtain ⟨b, hb, hs⟩ := h
    have hempty : (shortages stock qtd bom).isEmpty = false := by
      rw [Bool.eq_false_iff]
      intro ht
      exact List.ne_nil_of_mem (mem_shortages stock qtd bom b hb hs)
        (List.isEmpty_iff.mp ht)
    refine ⟨?_, shortages stock qtd bom, ?_, ?_⟩
    · simp [createOrder, hempty]
    · simp [createOrder, hempty]
    · intro b' hb' hs'
      exact mem_shortages stock qtd bom b' hb' hs'
  · norm_num [createOrder, shortages, available, consumeBom, consumeRows,
      nextLogId]

/-- Witness for C2 at the spec's concrete shortage scenario: stock rows
totalling 4 against need 5 leave the state unchanged and report M1. -/
theorem C2_shortage_abort_witness :
    (createOrder [⟨"M1", "Mat", 1⟩, ⟨"M1", "Mat", 3⟩] [] "P1" 10 "d"
        [⟨"M1", 1/2⟩]).1 =
      ([⟨"M1", "Mat", 1⟩, ⟨"M1", "Mat", 3⟩], []) ∧
    ∃ l, (createOrder [⟨"M1", "Mat", 1⟩, ⟨"M1", "Mat", 3⟩] [] "P1" 10 "d"
        [⟨"M1", 1/2⟩]).2 = some l ∧
      ∀ b ∈ [(⟨"M1", 1/2⟩ : BomItem)],
        shortProp [⟨"M1", "Mat", 1⟩, ⟨"M1", "Mat", 3⟩] 10 b → b.mp_id ∈ l :=
  C2_shortage_abort.1 [⟨"M1", "Mat", 1⟩, ⟨"M1", "Mat", 3⟩] [] "P1" 10 "d"
    [⟨"M1", 1/2⟩]
    ⟨⟨"M1", 1/2⟩, List.mem_singleton.mpr rfl, Or.inr (by norm_num [available])⟩

/-- C3: a feasible createOrder consumes the stock greedily and appends the
log row with id nextLogId (max existing id + 1, or 1 when the log is
empty); consumption preserves the number of rows and keeps every quantity
nonnegative (no row below zero, each row losing at most its balance, by
consumeRows_rows), and for pairwise-distinct components exactly need is
removed from each component's availability (need exhausted). The last
conjunct settles the spec's concrete scenario: rows 3 and 4 against need 5
drop to 0 and 2 and a log row with qtd 10 and id 1 is appended. -/
theorem C3_feasible_consumption :
    (∀ (stock : List MpRow) (log : List ProdLogRow) (produto : String) (qtd : ℚ)
        (data : String) (bom : List BomItem),
      shortages stock qtd bom = [] →
      createOrder stock log produto qtd data bom =
        ((consumeBom stock qtd bom,
          log ++ [⟨nextLogId log, produto, qtd, data, bom⟩]), none)) ∧
    (∀ (stock : List MpRow) (qtd : ℚ) (bom : List BomItem),
      (∀ b ∈ bom, 0 ≤ b.qty_per_product * qtd) →
      (∀ r ∈ stock, 0 ≤ r.quantidade) →
      (consumeBom stock qtd bom).length = stock.length ∧
      (∀ r' ∈ consumeBom stock qtd bom, 0 ≤ r'.quantidade)) ∧
    (∀ (stock : List MpRow) (qtd : ℚ) (bom : List BomItem),
      (bom.map (fun b => b.mp_id)).Nodup →
      (∀ r ∈ stock, 0 ≤ r.quantidade) →
      (∀ b ∈ bom, 0 ≤ b.qty_per_product * qtd) →
      shortages stock qtd bom = [] →
      ∀ b ∈ bom, available (consumeBom stock qtd bom) b.mp_id =
        available stock b.mp_id - b.qty_per_product * qtd) ∧
    nextLogId [] = 1 ∧
    createOrder [⟨"M1", "Mat", 3⟩, ⟨"M1", "Mat", 4⟩] [] "P1" 10 "d"
        [⟨"M1", 1/2⟩] =
      (([⟨"M1", "Mat", 0⟩, ⟨"M1", "Mat", 2⟩],
        [⟨1, "P1", 10, "d", [⟨"M1", 1/2⟩]⟩]), none) := by
  refine ⟨?_, ?_, ?_, rfl, ?_⟩
  · intro stock log produto qtd data bom hsh
    have hempty : (shortages stock qtd bom).isEmpty = true :=
      List.isEmpty_iff.mpr hsh
    simp [createOrder, hempty]
  · intro stock qtd bom hbom hst
    exact ⟨consumeBom_length bom stock qtd,
      consumeBom_nonneg bom stock qtd hbom hst⟩
  · intro stock qtd bom hnd hst hbom hsh
    have hfeas : ∀ b ∈ bom, 0 ≤ b.qty_per_product * qtd ∧
        b.qty_per_product * qtd ≤ available stock b.mp_id := by
      intro b hb
      have hns := shortages_nil stock qtd bom hsh b hb
      rw [shortProp] at hns
      push_neg at hns
      exact ⟨hbom b hb, hns.2⟩
    exact consumeBom_available bom stock qtd hnd hst hfeas
  · norm_num [createOrder, shortages, available, consumeBom, consumeRows,
      nextLogId]

/-- Witness for C3 at concrete inputs: a feasible order over rows 3 and 4
takes the consume branch and removes exactly its need of 2 from M1's
availability. -/
theorem C3_feasible_consumption_witness :
    createOrder [⟨"M1", "Mat", 3⟩, ⟨"M1", "Mat", 4⟩] [] "P2" 8 "d2"
        [⟨"M1", 1/4⟩] =
      ((consumeBom [⟨"M1", "Mat", 3⟩, ⟨"M1", "Mat", 4⟩] 8 [⟨"M1", 1/4⟩],
        [⟨1, "P2", 8, "d2", [⟨"M1", 1/4⟩]⟩]), none) ∧
    available (consumeBom [⟨"M1", "Mat", 3⟩, ⟨"M1", "Mat", 4⟩] 8
        [⟨"M1", 1/4⟩]) "M1" =
      available [⟨"M1", "Mat", 3⟩, ⟨"M1", "Mat", 4⟩] "M1" - (1/4) * 8 := by
  have h := C3_feasible_consumption
  constructor
  · exact h.1 [⟨"M1", "Mat", 3⟩, ⟨"M1", "Mat", 4⟩] [] "P2" 8 "d2" [⟨"M1", 1/4⟩]
      (by norm_num [shortages, available])
  · have h3 := h.2.2.1 [⟨"M1", "Mat", 3⟩, ⟨"M1", "Mat", 4⟩] 8 [⟨"M1", 1/4⟩]
      (by simp) (by norm_num [List.forall_mem_cons])
      (by norm_num [List.forall_mem_cons])
      (by norm_num [shortages, available]) ⟨"M1", 1/4⟩
      (List.mem_singleton.mpr rfl)
    exact h3

/-- C4: write_excel_sheets on an existing workbook keeps the content of
every sheet whose name is not in the input unchanged, replaces the content
of each named sheet with the given table (input names pairwise distinct, as
they come from a dict), and on a missing file creates a workbook holding
exactly the given sheets. The sheet model equates sheets by content, which
is what byte-identity of an untouched sheet means at this level. -/
theorem C4_write_excel_sheets_frame :
    (∀ (wb input : List (String × Df)) (name : String),
      (∀ q ∈ input, q.1 ≠ name) →
      sheetContent (write_excel_sheets input (some wb)) name =
        sheetContent wb name) ∧
    (∀ (wb input : List (String × Df)) (name : String) (df : Df),
      (input.map Prod.fst).Nodup → (name, df) ∈ input →
      sheetContent (write_excel_sheets input (some wb)) name = some df) ∧
    (∀ input : List (String × Df), write_excel_sheets input none = input) := by
  refine ⟨?_, ?_, fun input => rfl⟩
  · intro wb input name h
    unfold sheetContent write_excel_sheets
    rw [find?_filter_append input name h wb]
  · intro wb input name df hnd hmem
    unfold sheetContent write_excel_sheets
    rw [List.find?_append,
      find?_filter_none input name (List.mem_map.mpr ⟨(name, df), hmem, rfl⟩) wb,
      Option.none_or, find?_input_mem input name df hnd hmem, Option.map_some']

/-- Witness for C4 at concrete inputs: replacing sheet A in a workbook
holding A and B leaves B with its old content and gives A the new one. -/
theorem C4_write_excel_sheets_frame_witness :
    sheetContent (write_excel_sheets [("A", [["new"]])]
        (some [("A", [["old"]]), ("B", [["b"]])])) "B" =
      sheetContent [("A", [["old"]]), ("B", [["b"]])] "B" ∧
    sheetContent (write_excel_sheets [("A", [["new"]])]
        (some [("A", [["old"]]), ("B", [["b"]])])) "A" = some [["new"]] := by
  have h := C4_write_excel_sheets_frame
  exact ⟨h.1 [("A", [["old"]]), ("B", [["b"]])] [("A", [["new"]])] "B" (by decide),
    h.2.1 [("A", [["old"]]), ("B", [["b"]])] [("A", [["new"]])] "A" [["new"]]
      (by decide) (by decide)⟩

/-- C5: for every mapping with pairwise-distinct target tables, the
bootstrap import fully overwrites the table of each pair whose sheet is
present, so reading that table afterwards returns exactly the sheet's
content (round-trip), while a pair whose sheet is absent leaves its table
exactly as it was before the pass. -/
theorem C5_bootstrap_roundtrip :
    ∀ (mapping : List (String × String)) (xlsx : String → Except String Df)
      (db : DbState) (s t : String),
      (mapping.map Prod.snd).Nodup → (s, t) ∈ mapping →
      (∀ df, xlsx s = Except.ok df →
        read_table (init_db_from_excel mapping xlsx db) t = df) ∧
      (∀ e, xlsx s = Except.error e →
        init_db_from_excel mapping xlsx db t = db t) := by
  intro mapping xlsx db s t hnd hmem
  constructor
  · intro df hx
    rw [read_table, init_db_mem_ok mapping xlsx db s t df hnd hmem hx]
  · intro e hx
    exact init_db_mem_err mapping xlsx db s t e hnd hmem hx

/-- Witness for C5 at concrete inputs: sheet S is present and lands in table
t; sheet R is absent and table u keeps its prior (failing) state. -/
theorem C5_bootstrap_roundtrip_witness :
    read_table (init_db_from_excel [("S", "t"), ("R", "u")]
        (fun n => if n = "S" then Except.ok [["a"]] else Except.error "missing")
        (fun _ => Except.error "no table")) "t" = [["a"]] ∧
    init_db_from_excel [("S", "t"), ("R", "u")]
        (fun n => if n = "S" then Except.ok [["a"]] else Except.error "missing")
        (fun _ => Except.error "no table") "u" =
      (fun _ => (Except.error "no table" : Except String Df)) "u" := by
  have h1 := C5_bootstrap_roundtrip [("S", "t"), ("R", "u")]
    (fun n => if n = "S" then Except.ok [["a"]] else Except.error "missing")
    (fun _ => Except.error "no table") "S" "t" (by decide) (by decide)
  have h2 := C5_bootstrap_roundtrip [("S", "t"), ("R", "u")]
    (fun n => if n = "S" then Except.ok [["a"]] else Except.error "missing")
    (fun _ => Except.error "no table") "R" "u" (by decide) (by decide)
  exact ⟨h1.1 [["a"]] rfl, h2.2 "missing" rfl⟩

/-- C6: write_table replaces the table's entire previous contents with df,
regardless of what the table held before (arbitrary prior db), and an
immediately following read_table on the same name returns exactly df. -/
theorem C6_write_table_snapshot :
    ∀ (db : DbState) (t : String) (df : Df),
      write_table db t df t = Except.ok df ∧
      read_table (write_table db t df) t = df := by
  intro db t df
  refine ⟨?_, ?_⟩ <;> simp [write_table, read_table]

/-- C7: read_table is a total function: on every database state and table
name it either returns the table's full contents (when the underlying query
succeeds) or the empty result (when the query fails, in particular when the
table does not exist); no error propagates to the caller. -/
theorem C7_read_table_total :
    ∀ (db : DbState) (t : String),
      (∃ df, db t = Except.ok df ∧ read_table db t = df) ∨
      (∃ e, db t = Except.error e ∧ read_table db t = []) := by
  intro db t
  cases h : db t with
  | ok df => exact Or.inl ⟨df, rfl, by simp [read_table, h]⟩
  | error e => exact Or.inr ⟨e, rfl, by simp [read_table, h]⟩

/-- C8: a with_lock call that acquires the marker (marker initially absent)
completes and leaves the marker absent whatever fn does (return or raise),
so a second lock-guarded call acquires it in turn and again leaves it
absent: sequential guarded calls never overlap and the marker is gone once
both have completed. -/
theorem C8_lock_released :
    ∀ {σ ε : Type} (fn g : σ → Except ε σ) (s : FsState σ),
      s.lockExists = false →
      ∃ p : FsState σ × Except ε Unit,
        with_lock fn s = some p ∧ p.1.lockExists = false ∧
        ∃ q : FsState σ × Except ε Unit,
          with_lock g p.1 = some q ∧ q.1.lockExists = false := by
  intro σ ε fn g s h
  have hbody : ∀ (f : σ → Except ε σ) (t : FsState σ),
      (with_lock_body f t).1.lockExists = false := by
    intro f t
    cases hf : f t.data <;> simp [with_lock_body, hf]
  refine ⟨with_lock_body fn s, ?_, hbody fn s,
    with_lock_body g (with_lock_body fn s).1, ?_, hbody g _⟩
  · simp [with_lock, h]
  · simp [with_lock, hbody fn s]

/-- Witness for C8 at concrete inputs: the first guarded operation succeeds,
the second raises, and the marker is absent after each. -/
theorem C8_lock_released_witness :
    ∃ p : FsState Nat × Except String Unit,
      with_lock (fun n => Except.ok (n + 1)) ⟨false, 0⟩ = some p ∧
      p.1.lockExists = false ∧
      ∃ q : FsState Nat × Except String Unit,
        with_lock (fun _ => Except.error "boom") p.1 = some q ∧
        q.1.lockExists = false :=
  C8_lock_released (fun n => Except.ok (n + 1)) (fun _ => Except.error "boom")
    ⟨false, 0⟩ rfl

/-- C9: the acquisition loop has no timeout: when the marker exists at every
poll and is never removed, the loop is still spinning after any number of
polls, so with_lock never invokes the guarded operation and never produces
any result, in particular no lock-timeout error (the model's only completed
results pass through the acquired branch). -/
theorem C9_no_timeout :
    ∀ (lockAt : Nat → Bool), (∀ k, lockAt k = true) →
      (∀ fuel, lock_wait_loop lockAt fuel = none) ∧
      (∀ {σ ε : Type} (fuel : Nat) (fn : σ → Except ε σ) (s : σ),
        with_lock_poll lockAt fuel fn s = none) := by
  intro lockAt h
  refine ⟨fun fuel => lock_wait_loop_none fuel lockAt h, ?_⟩
  intro σ ε fuel fn s
  simp [with_lock_poll, lock_wait_loop_none fuel lockAt h]

/-- Witness for C9 at concrete inputs: with the marker always present, five polls
produce nothing and the guarded operation is never run. -/
theorem C9_no_timeout_witness :
    lock_wait_loop (fun _ => true) 5 = none ∧
    with_lock_poll (fun _ => true) 5
      (fun n : Nat => (Except.ok n : Except String Nat)) 0 = none := by
  have h := C9_no_timeout (fun _ => true) (fun _ => rfl)
  exact ⟨h.1 5, h.2 5 _ 0⟩

/-- C1 counterexample: with two stock rows sharing SKU X, a +5 movement on X
adds 5 to BOTH rows (the pandas boolean-mask assignment targets every
matching row), so the second matching row changes from quantity 2 to 7,
refuting the claim that only the first matching row is the single target and
other matching rows stay unchanged. -/
theorem C1_single_target_counterexample :
    (submit_mov [] [⟨"X", "W", 1, "", ""⟩, ⟨"X", "W", 2, "", ""⟩]
        "X" "W" 5 "m" "op" "t").2 =
      [⟨"X", "W", 6, "", ""⟩, ⟨"X", "W", 7, "", ""⟩] ∧
    ((submit_mov [] [⟨"X", "W", 1, "", ""⟩, ⟨"X", "W", 2, "", ""⟩]
        "X" "W" 5 "m" "op" "t").2)[1]? ≠
      some ⟨"X", "W", 2, "", ""⟩ := by
  constructor
  · norm_num [submit_mov]
    decide
  · norm_num [submit_mov]
    decide

/-- C1 amended: recordMovement with a non-empty sku appends a movement
ledger row and then, if one or more StockItem rows match the sku, adds delta
to the quantity of EVERY matching row (non-matching rows unchanged, length
preserved); if no row matches, exactly one new StockItem row with quantity
delta and the given name is appended. The concrete two-movement scenario of
the claim (a single matching row) behaves exactly as stated: one row with
quantity 5, then quantity 3, with two ledger entries in insertion order. -/
theorem C1_movement_amended :
    (∀ (ledger : List MovRow) (stock : List InjRow) (sku nome : String) (qty : ℚ)
        (motivo operador data : String), sku ≠ "" →
      (submit_mov ledger stock sku nome qty motivo operador data).1 =
        ledger ++ [⟨ledger.length + 1, sku, nome, qty, motivo, operador, data⟩] ∧
      ((stock.any (fun r => r.sku == sku)) = true →
        ((submit_mov ledger stock sku nome qty motivo operador data).2.length =
          stock.length) ∧
        ∀ (i : Nat) (r : InjRow), stock[i]? = some r →
          (r.sku = sku →
            (submit_mov ledger stock sku nome qty motivo operador data).2[i]? =
              some { r with quantidade := r.quantidade + qty }) ∧
          (r.sku ≠ sku →
            (submit_mov ledger stock sku nome qty motivo operador data).2[i]? =
              some r)) ∧
      ((stock.any (fun r => r.sku == sku)) = false →
        (submit_mov ledger stock sku nome qty motivo operador data).2 =
          stock ++ [⟨sku, nome, qty, "", ""⟩])) ∧
    (submit_mov [] [] "X" "Widget" 5 "m" "op" "t1") =
      ([⟨1, "X", "Widget", 5, "m", "op", "t1"⟩], [⟨"X", "Widget", 5, "", ""⟩]) ∧
    (submit_mov [⟨1, "X", "Widget", 5, "m", "op", "t1"⟩]
        [⟨"X", "Widget", 5, "", ""⟩] "X" "Widget" (-2) "m" "op" "t2") =
      ([⟨1, "X", "Widget", 5, "m", "op", "t1"⟩,
        ⟨2, "X", "Widget", -2, "m", "op", "t2"⟩],
        [⟨"X", "Widget", 3, "", ""⟩]) := by
  refine ⟨?_, ?_, ?_⟩
  · intro ledger stock sku nome qty motivo operador data hsku
    refine ⟨by simp [submit_mov], ?_, ?_⟩
    · intro hany
      constructor
      · simp [submit_mov, hsku, hany]
      · intro i r hir
        have hmap : (submit_mov ledger stock sku nome qty motivo operador data).2 =
            stock.map (fun r =>
              if r.sku == sku then { r with quantidade := r.quantidade + qty }
              else r) := by
          simp [submit_mov, hsku, hany]
        constructor
        · intro hr
          rw [hmap, List.getElem?_map, hir]
          simp [hr]
        · intro hr
          rw [hmap, List.getElem?_map, hir]
          simp [hr]
    · intro hany
      simp [submit_mov, hsku, hany]
  · norm_num [submit_mov]
  · norm_num [submit_mov]
    decide

/-- Witness for the amended C1 at concrete inputs: a movement on SKU X with
one matching row appends the ledger entry and bumps that row's quantity. -/
theorem C1_movement_amended_witness :
    (submit_mov [] [⟨"X", "W", 2, "", ""⟩] "X" "W" 5 "m" "op" "t").1 =
      [⟨1, "X", "W", 5, "m", "op", "t"⟩] ∧
    (submit_mov [] [⟨"X", "W", 2, "", ""⟩] "X" "W" 5 "m" "op" "t").2[0]? =
      some ⟨"X", "W", 7, "", ""⟩ := by
  have h := (C1_movement_amended.1 [] [⟨"X", "W", 2, "", ""⟩]
    "X" "W" 5 "m" "op" "t" (by decide))
  refine ⟨by simpa using h.1, ?_⟩
  have h2 := (h.2.1 (by decide)).2 0 ⟨"X", "W", 2, "", ""⟩ (by decide)
  have h3 := h2.1 rfl
  rw [h3]
  norm_num

/-- C10: a movement submission with an empty SKU always takes the append
branch: one fresh StockItem row is appended and every pre-existing row —
including rows whose own SKU is empty — is left exactly as it was; a second
empty-SKU movement appends a second duplicate row instead of updating a
total. -/
theorem C10_empty_sku_append :
    ∀ (ledger : List MovRow) (stock : List InjRow) (nome : String) (qty : ℚ)
      (motivo operador data : String),
      (submit_mov ledger stock "" nome qty motivo operador data).2 =
        stock ++ [⟨"", nome, qty, "", ""⟩] ∧
      (submit_mov (submit_mov ledger stock "" nome qty motivo operador data).1
          (submit_mov ledger stock "" nome qty motivo operador data).2
          "" nome qty motivo operador data).2 =
        stock ++ [⟨"", nome, qty, "", ""⟩, ⟨"", nome, qty, "", ""⟩] := by
  intro ledger stock nome qty motivo operador data
  refine ⟨?_, ?_⟩ <;> simp [submit_mov]

end FinalProducao
